import Mathlib

/-!
Verification of the version-generator repository's core logic.

Strings from the JavaScript source are modelled as `List Char`; JavaScript
numbers that may be `NaN` are modelled by `JsNum`; fallible operations return
`Except` or `Option`.  Each definition below is a shallow embedding of the
correspondingly named function of the source (src/base64.ts,
src/android-version.ts, src/ios-version.ts, src/index.ts), with the injected
network/process collaborators replaced by explicit data arguments.
-/

/-- Character predicate for the ASCII alphanumeric class [A-Za-z0-9] used by
the source's regexes. -/
def isAsciiAlnum (c : Char) : Bool :=
  (65 ≤ c.toNat && c.toNat ≤ 90) || (97 ≤ c.toNat && c.toNat ≤ 122) ||
    (48 ≤ c.toNat && c.toNat ≤ 57)

/-- ASCII decimal digit test, as matched by the regex class \d. -/
def isDigitCh (c : Char) : Bool := 48 ≤ c.toNat && c.toNat ≤ 57

/-- Hexadecimal digit test, as accepted by JavaScript parseInt with radix 16. -/
def isHexDigitCh (c : Char) : Bool :=
  isDigitCh c || (97 ≤ c.toNat && c.toNat ≤ 102) || (65 ≤ c.toNat && c.toNat ≤ 70)

/-- Numeric value of a decimal digit character. -/
def digitVal (c : Char) : Nat := c.toNat - 48

/-- Numeric value of a hexadecimal digit character. -/
def hexDigitVal (c : Char) : Nat :=
  if isDigitCh c then c.toNat - 48
  else if 97 ≤ c.toNat && c.toNat ≤ 102 then c.toNat - 87
  else c.toNat - 55

/-- Value of a list of decimal digit characters, most significant first. -/
def digitsToNat (ds : List Char) : Nat :=
  ds.foldl (fun acc c => 10 * acc + digitVal c) 0

/-- Value of a list of hexadecimal digit characters, most significant first. -/
def hexDigitsToNat (ds : List Char) : Nat :=
  ds.foldl (fun acc c => 16 * acc + hexDigitVal c) 0

/-- The JavaScript whitespace class \s (also used by String.prototype.trim):
space, tab, line feed, vertical tab, form feed, carriage return, NBSP, the
Unicode space separators, line/paragraph separators, and the BOM. -/
def isJsWs (c : Char) : Bool :=
  c.toNat = 32 || c.toNat = 9 || c.toNat = 10 || c.toNat = 11 || c.toNat = 12 ||
  c.toNat = 13 || c.toNat = 160 || c.toNat = 5760 ||
  (8192 ≤ c.toNat && c.toNat ≤ 8202) || c.toNat = 8232 || c.toNat = 8233 ||
  c.toNat = 8239 || c.toNat = 8287 || c.toNat = 12288 || c.toNat = 65279

/-- Result of JavaScript string-to-number parsing: either an integer or NaN. -/
inductive JsNum where
  | nan
  | int (n : Int)
deriving DecidableEq

/-- JavaScript parseInt(s, 10): skip leading whitespace, optional sign, then a
maximal run of decimal digits; NaN when no digit is found. -/
def jsParseInt (s : List Char) : JsNum :=
  let t := s.dropWhile isJsWs
  let (sgn, t') : Int × List Char :=
    match t with
    | '-' :: r => (-1, r)
    | '+' :: r => (1, r)
    | _ => (1, t)
  let ds := t'.takeWhile isDigitCh
  if ds.isEmpty then JsNum.nan else JsNum.int (sgn * (digitsToNat ds : Int))

/-- JavaScript parseInt(s, 16) restricted to the inputs used by the source
(commit-hash prefixes): a maximal run of leading hexadecimal digits, NaN when
there is none. -/
def jsParseIntHex (s : List Char) : JsNum :=
  let ds := s.takeWhile isHexDigitCh
  if ds.isEmpty then JsNum.nan else JsNum.int (hexDigitsToNat ds)

/-- Decimal rendering of a natural number, auxiliary recursion on fuel. -/
def natToStrAux : Nat → Nat → List Char
  | 0, _ => []
  | fuel + 1, n =>
    if n < 10 then [Char.ofNat (48 + n)]
    else natToStrAux fuel (n / 10) ++ [Char.ofNat (48 + n % 10)]

/-- Decimal rendering of a natural number, as JavaScript number-to-string. -/
def natToStr (n : Nat) : List Char := natToStrAux (n + 1) n

/-- JavaScript rendering of an integer in a template literal. -/
def intToStr (i : Int) : List Char :=
  if i < 0 then '-' :: natToStr i.natAbs else natToStr i.natAbs

/-- JavaScript rendering of a possibly-NaN number in a template literal. -/
def jsNumToStr : JsNum → List Char
  | JsNum.nan => ['N', 'a', 'N']
  | JsNum.int n => intToStr n

/-- If the first argument is a literal prefix of the second, return the
remainder, otherwise none. -/
def dropLit : List Char → List Char → Option (List Char)
  | [], s => some s
  | _, [] => none
  | a :: ps, b :: ss => if a = b then dropLit ps ss else none

/-- JavaScript String.prototype.trim. -/
def jsTrim (s : List Char) : List Char :=
  ((s.dropWhile isJsWs).reverse.dropWhile isJsWs).reverse

example : jsParseInt ['1', '0', '5'] = JsNum.int 105 := by decide
example : jsParseInt ['-', '7'] = JsNum.int (-7) := by decide
example : jsParseInt ['a', 'b', 'c'] = JsNum.nan := by decide
example : natToStr 105 = ['1', '0', '5'] := by decide
example : intToStr (-42) = ['-', '4', '2'] := by decide

/-- Type tag of a JavaScript value produced by JSON.parse.  The claims only
inspect the typeof-class of parsed values, so the parser validates full JSON
syntax but records just the top-level tag. -/
inductive Js where
  | jnull
  | jbool (b : Bool)
  | jnum
  | jstr
  | jarr
  | jobj
deriving DecidableEq

/-- JSON whitespace (space, tab, line feed, carriage return), as accepted
between tokens by JSON.parse. -/
def isJsonWs (c : Char) : Bool :=
  c.toNat = 32 || c.toNat = 9 || c.toNat = 10 || c.toNat = 13

/-- Skip JSON inter-token whitespace. -/
def skipJsonWs (s : List Char) : List Char := s.dropWhile isJsonWs

/-- Consume the body of a JSON string literal after the opening quote,
returning the remainder after the closing quote. -/
def jsonStringBody : Nat → List Char → Option (List Char)
  | 0, _ => none
  | _ + 1, [] => none
  | fuel + 1, c :: rest =>
    if c = '"' then some rest
    else if c = '\\' then
      match rest with
      | [] => none
      | e :: rest' =>
        if e = '"' ∨ e = '\\' ∨ e = '/' ∨ e = 'b' ∨ e = 'f' ∨ e = 'n' ∨
            e = 'r' ∨ e = 't' then jsonStringBody fuel rest'
        else if e = 'u' then
          match rest' with
          | h1 :: h2 :: h3 :: h4 :: rest'' =>
            if isHexDigitCh h1 && isHexDigitCh h2 && isHexDigitCh h3 &&
                isHexDigitCh h4 then jsonStringBody fuel rest'' else none
          | _ => none
        else none
    else if c.toNat < 32 then none
    else jsonStringBody fuel rest

/-- Consume a JSON number (after an optional leading minus sign has been
kept in the input), returning the remainder.  Grammar:
-? (0 | [1-9][0-9]*) (. [0-9]+)? ([eE] [+-]? [0-9]+)?. -/
def jsonNumberTail (s : List Char) : Option (List Char) :=
  let (s1, ok1) : List Char × Bool :=
    match s with
    | '0' :: r => (r, true)
    | c :: r =>
      if isDigitCh c ∧ c ≠ '0' then (r.dropWhile isDigitCh, true) else (s, false)
    | [] => (s, false)
  if ok1 then
    let s2 : Option (List Char) :=
      match s1 with
      | '.' :: r =>
        let ds := r.takeWhile isDigitCh
        if ds.isEmpty then none else some (r.dropWhile isDigitCh)
      | _ => some s1
    match s2 with
    | none => none
    | some s2' =>
      match s2' with
      | 'e' :: r | 'E' :: r =>
        let r' := match r with
          | '+' :: r'' => r''
          | '-' :: r'' => r''
          | _ => r
        let ds := r'.takeWhile isDigitCh
        if ds.isEmpty then none else some (r'.dropWhile isDigitCh)
      | _ => some s2'
  else none

/-- Parsing mode for the fueled JSON recogniser: a whole value, the items of
an array after the opening bracket, or the members of an object after the
opening brace. -/
inductive JMode where
  | value
  | arrItems
  | objItems
deriving DecidableEq

/-- Fueled JSON recogniser.  In value mode it parses one JSON value from the
input (which must begin with the value, no leading whitespace) and returns its
typeof-tag with the remainder; the item modes consume the rest of an array or
object and return a dummy tag with the remainder.  Structural recursion on the
fuel keeps the function kernel-evaluable. -/
def jsonRun : Nat → JMode → List Char → Option (Js × List Char)
  | 0, _, _ => none
  | _ + 1, _, [] => none
  | fuel + 1, JMode.value, c :: rest =>
    if c = 'n' then
      match dropLit ['u', 'l', 'l'] rest with
      | some r => some (Js.jnull, r)
      | none => none
    else if c = 't' then
      match dropLit ['r', 'u', 'e'] rest with
      | some r => some (Js.jbool true, r)
      | none => none
    else if c = 'f' then
      match dropLit ['a', 'l', 's', 'e'] rest with
      | some r => some (Js.jbool false, r)
      | none => none
    else if c = '"' then
      match jsonStringBody (fuel + 1) rest with
      | some r => some (Js.jstr, r)
      | none => none
    else if c = '[' then
      match skipJsonWs rest with
      | ']' :: r => some (Js.jarr, r)
      | r0 =>
        match jsonRun fuel JMode.arrItems r0 with
        | some (_, r) => some (Js.jarr, r)
        | none => none
    else if c = '{' then
      match skipJsonWs rest with
      | '}' :: r => some (Js.jobj, r)
      | r0 =>
        match jsonRun fuel JMode.objItems r0 with
        | some (_, r) => some (Js.jobj, r)
        | none => none
    else if c = '-' then
      match jsonNumberTail rest with
      | some r => some (Js.jnum, r)
      | none => none
    else
      match jsonNumberTail (c :: rest) with
      | some r => some (Js.jnum, r)
      | none => none
  | fuel + 1, JMode.arrItems, s =>
    match jsonRun fuel JMode.value s with
    | none => none
    | some (_, r1) =>
      match skipJsonWs r1 with
      | ',' :: r2 => jsonRun fuel JMode.arrItems (skipJsonWs r2)
      | ']' :: r2 => some (Js.jarr, r2)
      | _ => none
  | fuel + 1, JMode.objItems, s =>
    match s with
    | '"' :: s1 =>
      match jsonStringBody (fuel + 1) s1 with
      | none => none
      | some r1 =>
        match skipJsonWs r1 with
        | ':' :: r2 =>
          match jsonRun fuel JMode.value (skipJsonWs r2) with
          | none => none
          | some (_, r3) =>
            match skipJsonWs r3 with
            | ',' :: r4 => jsonRun fuel JMode.objItems (skipJsonWs r4)
            | '}' :: r4 => some (Js.jobj, r4)
            | _ => none
        | _ => none
    | _ => none

/-- JavaScript JSON.parse reduced to the typeof-tag of its result: some tag on
success, none when a SyntaxError would be thrown.  The fuel bound is generous
enough for any input of the given length. -/
def jsonParse (s : List Char) : Option Js :=
  match jsonRun (2 * s.length + 4) JMode.value (skipJsonWs s) with
  | some (v, rest) => if (skipJsonWs rest).isEmpty then some v else none
  | none => none

example : jsonParse ('{' :: '"' :: 'a' :: '"' :: ':' :: '1' :: ['\x7d']) = some Js.jobj := by decide
example : jsonParse "[1]".data = some Js.jarr := by decide
example : jsonParse "[1, 2, 3]".data = some Js.jarr := by decide
example : jsonParse "[[[[[0]]]]]".data = some Js.jarr := by decide
example : jsonParse "true".data = some (Js.jbool true) := by decide
example : jsonParse "105".data = some Js.jnum := by decide
example : jsonParse "-1.5e3".data = some Js.jnum := by decide
example : jsonParse "null".data = some Js.jnull := by decide
example : jsonParse "WzFd".data = none := by decide
example : jsonParse "[1".data = none := by decide
example : jsonParse "".data = none := by decide

/-- Membership in the base64 alphabet [A-Za-z0-9+/]. -/
def isB64Char (c : Char) : Bool := isAsciiAlnum c || c = '+' || c = '/'

/-- The source's base64 shape regex: a run of alphabet characters followed by
at most two padding characters and nothing else. -/
def base64ShapeOk (s : List Char) : Bool :=
  let body := s.takeWhile isB64Char
  let pad := s.drop body.length
  pad.all (· = '=') && pad.length ≤ 2

/-- Six-bit value of a base64 alphabet character. -/
def b64Val (c : Char) : Nat :=
  if 65 ≤ c.toNat && c.toNat ≤ 90 then c.toNat - 65
  else if 97 ≤ c.toNat && c.toNat ≤ 122 then c.toNat - 71
  else if 48 ≤ c.toNat && c.toNat ≤ 57 then c.toNat + 4
  else if c = '+' then 62
  else 63

/-- Byte sequence produced by decoding groups of base64 characters, as
Buffer.from(s, 'base64'): four characters yield three bytes, a trailing group
of three yields two, of two yields one, and a single leftover is dropped. -/
def b64Chunks : List Char → List Nat
  | a :: b :: c :: d :: rest =>
    (b64Val a * 4 + b64Val b / 16) ::
    (b64Val b % 16 * 16 + b64Val c / 4) ::
    (b64Val c % 4 * 64 + b64Val d) :: b64Chunks rest
  | [a, b, c] =>
    [b64Val a * 4 + b64Val b / 16, b64Val b % 16 * 16 + b64Val c / 4]
  | [a, b] => [b64Val a * 4 + b64Val b / 16]
  | _ => []

/-- Base64 decoding of a shape-valid string: padding is ignored, then the
character groups are decoded. -/
def b64DecodeBytes (s : List Char) : List Nat :=
  b64Chunks (s.takeWhile isB64Char)

/-- The Unicode replacement character U+FFFD. -/
def replChar : Char := Char.ofNat 65533

/-- Fueled UTF-8 decoding step: each step consumes at least one byte, so fuel
exceeding the byte count never runs out. -/
def utf8DecodeAux : Nat → List Nat → List Char
  | 0, _ => []
  | _ + 1, [] => []
  | fuel + 1, b :: bs =>
    if b < 128 then Char.ofNat b :: utf8DecodeAux fuel bs
    else if 194 ≤ b ∧ b ≤ 223 then
      match bs with
      | b2 :: bs2 =>
        if 128 ≤ b2 ∧ b2 ≤ 191 then
          Char.ofNat ((b - 192) * 64 + (b2 - 128)) :: utf8DecodeAux fuel bs2
        else replChar :: utf8DecodeAux fuel bs
      | [] => [replChar]
    else if 224 ≤ b ∧ b ≤ 239 then
      match bs with
      | b2 :: b3 :: bs3 =>
        if 128 ≤ b2 ∧ b2 ≤ 191 ∧ 128 ≤ b3 ∧ b3 ≤ 191 then
          let cp := (b - 224) * 4096 + (b2 - 128) * 64 + (b3 - 128)
          if 2048 ≤ cp ∧ ¬(55296 ≤ cp ∧ cp ≤ 57343) then
            Char.ofNat cp :: utf8DecodeAux fuel bs3
          else replChar :: utf8DecodeAux fuel bs3
        else replChar :: utf8DecodeAux fuel bs
      | _ => [replChar]
    else if 240 ≤ b ∧ b ≤ 244 then
      match bs with
      | b2 :: b3 :: b4 :: bs4 =>
        if 128 ≤ b2 ∧ b2 ≤ 191 ∧ 128 ≤ b3 ∧ b3 ≤ 191 ∧ 128 ≤ b4 ∧ b4 ≤ 191 then
          let cp := (b - 240) * 262144 + (b2 - 128) * 4096 + (b3 - 128) * 64 + (b4 - 128)
          if 65536 ≤ cp ∧ cp ≤ 1114111 then
            Char.ofNat cp :: utf8DecodeAux fuel bs4
          else replChar :: utf8DecodeAux fuel bs4
        else replChar :: utf8DecodeAux fuel bs
      | _ => [replChar]
    else replChar :: utf8DecodeAux fuel bs

/-- UTF-8 decoding of a byte sequence with U+FFFD replacement on malformed
sequences, as Buffer.prototype.toString('utf8'). -/
def utf8Decode (bs : List Nat) : List Char := utf8DecodeAux (bs.length + 1) bs

/-- Whitespace removal str.replace(regex-of-whitespace, empty string) applied
by isBase64 before the shape check. -/
def stripJsWs (s : List Char) : List Char := s.filter (fun c => !(isJsWs c))

/-- The decoded text Buffer.from(cleanStr, 'base64').toString('utf8') that
isBase64 inspects for a given input string. -/
def b64DecodedText (s : List Char) : List Char :=
  utf8Decode (b64DecodeBytes (stripJsWs s))

/-- Truth of typeof parsed === 'object' for a JSON.parse result: objects,
arrays and null all have typeof 'object' in JavaScript. -/
def isTypeofObject : Js → Bool
  | Js.jnull => true
  | Js.jarr => true
  | Js.jobj => true
  | _ => false

/-- Truth of typeof parsed === 'object' && parsed !== null: only objects and
arrays qualify. -/
def isComplexJson : Js → Bool
  | Js.jarr => true
  | Js.jobj => true
  | _ => false

/-- The quote-wrapping test str.startsWith('"') && str.endsWith('"') of
isBase64 (the string is already known non-empty there). -/
def quoteWrapped (s : List Char) : Bool :=
  (s.head? == some '"') && (s.getLast? == some '"')

/-- JavaScript str.slice(1, -1): drop the first and last character. -/
def jsSliceInner (s : List Char) : List Char := (s.drop 1).take (s.length - 2)

/-- Body of isBase64 after the empty-string and quote-stripping steps:
the expectJson direct-parse check, whitespace cleaning, the shape regex,
base64 decoding, and the final JSON-or-nonempty verdict (src/base64.ts
lines 12-62). -/
def isBase64Body (s : List Char) (expectJson : Bool) : Bool :=
  let directComplex :=
    expectJson &&
      (match jsonParse s with
       | some v => isComplexJson v
       | none => false)
  if directComplex then false
  else
    let cleanStr := stripJsWs s
    if !base64ShapeOk cleanStr then false
    else
      let decoded := utf8Decode (b64DecodeBytes cleanStr)
      if decoded.isEmpty then false
      else if expectJson then
        match jsonParse decoded with
        | some v => isTypeofObject v
        | none => false
      else true

/-- Fueled form of isBase64; the quote-stripping self-recursion of the source
strictly shrinks the string, so fuel exceeding the length never runs out. -/
def isBase64Aux : Nat → List Char → Bool → Bool
  | 0, _, _ => false
  | fuel + 1, s, expectJson =>
    if s.isEmpty then false
    else if quoteWrapped s then isBase64Aux fuel (jsSliceInner s) expectJson
    else isBase64Body s expectJson

/-- isBase64 of src/base64.ts. -/
def isBase64 (s : List Char) (expectJson : Bool) : Bool :=
  isBase64Aux (s.length + 1) s expectJson

example : isBase64 "WzFd".data true = true := by decide
example : isBase64 "dHJ1ZQ==".data false = true := by decide
example : isBase64 "true".data false = true := by decide
example : isBase64 "".data true = false := by decide
example : isBase64 ['"'] true = false := by decide
example : isBase64 ('"' :: "dHJ1ZQ==".data ++ ['"']) false = true := by decide

/-- A Play Store release as consumed by processReleases: a list of version-code
strings and an optional display name. -/
structure Release where
  versionCodes : List (List Char)
  name : Option (List Char)
deriving DecidableEq

/-- A Play Store track: its list of releases (a missing releases field of the
API response is modelled as the empty list, which processReleases ignores). -/
structure TrackData where
  releases : List Release
deriving DecidableEq

/-- Extraction of the major version from a release display name via the regex
match name.match(regex of leading digits then a dot), capture group parsed as
an integer; none when the regex does not match. -/
def extractMajor (name : List Char) : Option Int :=
  let ds := name.takeWhile isDigitCh
  if ds.isEmpty then none
  else
    match name.drop ds.length with
    | '.' :: _ => some (digitsToNat ds : Int)
    | _ => none

/-- Inner loop of processReleases over one release's version-code strings:
parse each code, and on a new strict maximum record it together with the major
version extracted from the release name (keeping the previous major when the
name is absent or does not match). -/
def processCodes (name : Option (List Char)) : List (List Char) → Int × Int → Int × Int
  | [], acc => acc
  | codeStr :: rest, acc =>
    let acc' :=
      match jsParseInt codeStr with
      | JsNum.nan => acc
      | JsNum.int vc =>
        if vc > acc.1 then
          (vc, match name.bind extractMajor with
               | some m => m
               | none => acc.2)
        else acc
    processCodes name rest acc'

/-- processReleases of src/android-version.ts: fold the releases, threading the
running highest version code and its associated major version. -/
def processReleases : List Release → Int → Int → Int × Int
  | [], h, m => (h, m)
  | r :: rs, h, m =>
    let acc := processCodes r.name r.versionCodes (h, m)
    processReleases rs acc.1 acc.2

example :
    processReleases
      [⟨["100".data, "101".data], some "1.0.0".data⟩,
       ⟨["105".data], some "1.1.0".data⟩] 0 0 = (105, 1) := by decide

/-- Pure core of getPlayStoreVersionInfo: given whether a track was specified,
the data that track query returned (none models a failed query or an absent
track), and the data of the all-tracks query, produce the version info
(none when no positive version code was found) together with whether the
all-tracks query was performed. -/
def getPlayStoreVersionInfoCore (trackGiven : Bool) (trackData : Option TrackData)
    (allTracks : List TrackData) : Option (Int × Int) × Bool :=
  let acc1 : Int × Int :=
    if trackGiven then
      match trackData with
      | some td =>
        if td.releases.isEmpty then (0, 0)
        else processReleases td.releases 0 0
      | none => (0, 0)
    else (0, 0)
  if acc1.1 = 0 then
    let acc2 := allTracks.foldl (fun (acc : Int × Int) t => processReleases t.releases acc.1 acc.2) acc1
    (if acc2.1 = 0 then none else some acc2, true)
  else (some acc1, false)

/-- JavaScript falsy-or-default (the expression x || 10 of the source): an
absent or zero increment yields the default of 10. -/
def jsOrDefault (x : Option Int) (d : Int) : Int :=
  match x with
  | some i => if i = 0 then d else i
  | none => d

/-- Increment selection of getAndroidVersionCode (src/android-version.ts lines
90-105): no version info means first publish (code 1); otherwise a strict
major-version increase adds majorVersionIncrement (JavaScript or-default 10,
also taken when the option is 0), else add 1. -/
def getAndroidVersionCodeCore (info : Option (Int × Int)) (currentMajorVersion : Int)
    (majorVersionIncrement : Option Int) : Int :=
  match info with
  | none => 1
  | some (versionCode, majorVersion) =>
    if currentMajorVersion > majorVersion then
      versionCode + jsOrDefault majorVersionIncrement 10
    else versionCode + 1

/-- The composed Android pipeline on injected Play Store data: the version info
lookup followed by the increment policy. -/
def getAndroidVersionCode (trackGiven : Bool) (trackData : Option TrackData)
    (allTracks : List TrackData) (currentMajorVersion : Int)
    (majorVersionIncrement : Option Int) : Int :=
  getAndroidVersionCodeCore (getPlayStoreVersionInfoCore trackGiven trackData allTracks).1
    currentMajorVersion majorVersionIncrement

example :
    getAndroidVersionCode false none
      [⟨[⟨["100".data, "101".data], some "1.0.0".data⟩,
         ⟨["105".data], some "1.1.0".data⟩]⟩] 1 none = 106 := by decide
example :
    getAndroidVersionCode false none
      [⟨[⟨["100".data, "101".data], some "1.0.0".data⟩,
         ⟨["105".data], some "1.1.0".data⟩]⟩] 2 none = 115 := by decide
example : getAndroidVersionCode false none [] 1 none = 1 := by decide

/-- Attributes of an App Store Connect build record. -/
structure BuildAttr where
  version : List Char
  buildNumber : List Char
deriving DecidableEq

/-- A build record of the App Store Connect response; the attributes object
may be absent. -/
structure BuildRecord where
  attributes : Option BuildAttr
deriving DecidableEq

/-- Loop of processBuilds: the running highest build number over records whose
version attribute equals the app release version and whose buildNumber parses
to a number (NaN skipped) exceeding the running value. -/
def highestBuildLoop (appReleaseVersion : List Char) : List BuildRecord → Int → Int
  | [], h => h
  | b :: bs, h =>
    let h' :=
      match b.attributes with
      | some a =>
        if a.version = appReleaseVersion then
          match jsParseInt a.buildNumber with
          | JsNum.nan => h
          | JsNum.int n => if n > h then n else h
        else h
      | none => h
    highestBuildLoop appReleaseVersion bs h'

/-- processBuilds of src/ios-version.ts: none when the response has no data
array or it is empty, otherwise the highest matching build number, with 0
(nothing found) reported as none. -/
def processBuilds (builds : Option (List BuildRecord)) (appReleaseVersion : List Char) :
    Option Int :=
  match builds with
  | none => none
  | some data =>
    if data.isEmpty then none
    else
      let highest := highestBuildLoop appReleaseVersion data 0
      if highest = 0 then none else some highest

/-- encodeCommitHash of src/ios-version.ts: parseInt of the first eight
characters at radix 16, reduced modulo 2147483647 with JavaScript's
truncating remainder (NaN propagates). -/
def encodeCommitHash (commitHash : List Char) : JsNum :=
  match jsParseIntHex (commitHash.take 8) with
  | JsNum.nan => JsNum.nan
  | JsNum.int n => JsNum.int (Int.tmod n 2147483647)

/-- iOS build number information: the numeric build number, the encoded commit
hash when one was attached, and the composed build version string. -/
structure IosBuildNumberInfo where
  buildNumber : Int
  encodedCommitHash : Option JsNum
  buildVersion : List Char
deriving DecidableEq

/-- composeIosBuildVersion of src/ios-version.ts: the build version string is
the build number alone, or buildNumber.encodedCommitHash when a (truthy, i.e.
non-empty) commit hash is given. -/
def composeIosBuildVersion (buildNumber : Int) (commitHash : Option (List Char)) :
    IosBuildNumberInfo :=
  let base : IosBuildNumberInfo :=
    { buildNumber := buildNumber, encodedCommitHash := none,
      buildVersion := intToStr buildNumber }
  match commitHash with
  | some h =>
    if h.isEmpty then base
    else
      let e := encodeCommitHash h
      { buildNumber := buildNumber, encodedCommitHash := some e,
        buildVersion := intToStr buildNumber ++ '.' :: jsNumToStr e }
  | none => base

/-- Pure core of getIosBuildNumberInfo on an injected API response: no version
info found means build number 1, otherwise the highest found plus one, composed
with the optional commit hash. -/
def getIosBuildNumberInfoCore (builds : Option (List BuildRecord))
    (appReleaseVersion : List Char) (commitHash : Option (List Char)) :
    IosBuildNumberInfo :=
  match processBuilds builds appReleaseVersion with
  | none => composeIosBuildVersion 1 commitHash
  | some h => composeIosBuildVersion (h + 1) commitHash

example :
    (getIosBuildNumberInfoCore
      (some [⟨some ⟨"1.0.0".data, "3".data⟩⟩, ⟨some ⟨"1.0.0".data, "5".data⟩⟩,
             ⟨some ⟨"1.0.0".data, "2".data⟩⟩, ⟨some ⟨"1.1.0".data, "10".data⟩⟩])
      "1.0.0".data none).buildNumber = 6 := by decide
example :
    (getIosBuildNumberInfoCore (some []) "1.0.0".data none).buildNumber = 1 := by decide
example : encodeCommitHash "abcdef12".data = JsNum.int 734916371 := by decide
example :
    (composeIosBuildVersion 6 (some "abcdef12".data)).buildVersion =
      "6.734916371".data := by decide

/-- The exact version-tag regex of the source (anchored v, digits, dot,
digits): tags such as v1, v1.2.3 or release-1.0 do not match. -/
def isVersionTag (t : List Char) : Bool :=
  match t with
  | c :: rest =>
    c = 'v' &&
      (let ds := rest.takeWhile isDigitCh
       !ds.isEmpty &&
         (match rest.drop ds.length with
          | c2 :: rest2 => c2 = '.' && (!rest2.isEmpty && rest2.all isDigitCh)
          | [] => false))
  | [] => false

/-- getLatestTag of src/index.ts, local-git branch, on the lines returned by
the git tag listing (newest first): drop empty lines, fail when none remain,
keep the lines whose trimmed form matches the version-tag regex, fail when
none match, otherwise return the first. -/
def getLatestTagFromLines (lines : List (List Char)) : Except (List Char) (List Char) :=
  let vTags := lines.filter (fun t => !t.isEmpty)
  if vTags.isEmpty then
    Except.error "No tags matching v*.* pattern found in repository ancestry".data
  else
    match vTags.filter (fun t => isVersionTag (jsTrim t)) with
    | [] => Except.error "No tags matching the required format vX.Y found in repository ancestry".data
    | t :: _ => Except.ok t

/-- getLatestTagFromGitHub of src/index.ts on the tag names of the API
response (newest first): fail on an empty response, keep names starting with
v, fail when none, keep names matching the version-tag regex, fail when none,
otherwise return the first. -/
def getLatestTagFromGitHub (names : List (List Char)) : Except (List Char) (List Char) :=
  if names.isEmpty then Except.error "No tags found in repository".data
  else
    let allVTags := names.filter (fun t => t.head? == some 'v')
    if allVTags.isEmpty then
      Except.error "No tags starting with v found in repository".data
    else
      match allVTags.filter isVersionTag with
      | [] => Except.error "No tags matching the required format vX.Y found in repository".data
      | t :: _ => Except.ok t

example :
    getLatestTagFromLines ["v1".data, "v1.2.3".data, "release-1.0".data, "v1.2".data] =
      Except.ok "v1.2".data := rfl
example :
    getLatestTagFromGitHub ["release-1.0".data, "v1".data, "v1.2.3".data] =
      Except.error "No tags matching the required format vX.Y found in repository".data := rfl

/-- Sanitising map of cleanBranchName: characters outside [A-Za-z0-9] become
hyphens. -/
def sanitizeChar (c : Char) : Char := if isAsciiAlnum c then c else '-'

/-- Removal of a leading refs/heads/ or refs/pull/ prefix (the anchored
alternation regex of cleanBranchName). -/
def stripRefs (s : List Char) : List Char :=
  match dropLit "refs/heads/".data s with
  | some rest => rest
  | none =>
    match dropLit "refs/pull/".data s with
    | some rest => rest
    | none => s

/-- cleanBranchName of src/index.ts: strip a refs/heads/ or refs/pull/ prefix,
then replace every non-alphanumeric character with a hyphen. -/
def cleanBranchName (branchName : List Char) : List Char :=
  (stripRefs branchName).map sanitizeChar

example : cleanBranchName "feature/new_feature@123".data = "feature-new-feature-123".data := by
  decide
example : cleanBranchName "refs/heads/main".data = "main".data := by decide

/-- The version information object assembled by generatePackageVersion.
Optional platform fields are modelled as Options (in JavaScript they are
undefined, and dropped on serialisation, when not set). -/
structure VersionInfo where
  major : List Char
  minor : List Char
  patch : Int
  branchName : List Char
  commitHash : List Char
  version : List Char
  appReleaseVersion : List Char
  androidVersionCode : Option Int
  iosBuildNumber : Option Int
  iosBuildNumberString : Option (List Char)
deriving DecidableEq

/-- Pure core of generatePackageVersion of src/index.ts: the selected tag, the
commit count, the raw branch name and the short commit hash stand in for the
repository queries, and the platform counters that getAndroidVersionCode and
getIosBuildNumberInfo would deliver are injected for the enabled platforms.
Mirrors the tag validation, the version-string assembly, and the
attach-or-fail policy for the two optional counters. -/
def generatePackageVersionCore (tag : List Char) (patch : Int)
    (rawBranch : List Char) (commitHash : List Char)
    (androidEnabled : Bool) (androidResult : Int)
    (iosEnabled : Bool) (iosResult : IosBuildNumberInfo) :
    Except (List Char) VersionInfo :=
  if ¬ tag.head? == some 'v' then Except.error "Tag must start with v".data
  else
    let parts := (tag.drop 1).splitOn '.'
    let major := (parts.head?).getD []
    let minor := (parts.drop 1).head?.getD []
    if major.isEmpty ∨ minor.isEmpty then
      Except.error "Invalid tag format. Expected v<major>.<minor>".data
    else
      let branchName := cleanBranchName rawBranch
      let version :=
        major ++ '.' :: minor ++ '.' :: intToStr patch ++ '-' :: branchName ++
          '.' :: commitHash
      let appReleaseVersion := major ++ '.' :: minor ++ '.' :: intToStr patch
      let androidStep : Except (List Char) (Option Int) :=
        if androidEnabled then
          if androidResult > 0 then Except.ok (some androidResult)
          else Except.error "Android version code generation failed: returned invalid version code".data
        else Except.ok none
      match androidStep with
      | Except.error e => Except.error e
      | Except.ok androidVersionCode =>
        let iosStep : Except (List Char) (Option Int × Option (List Char)) :=
          if iosEnabled then
            if iosResult.buildNumber ≤ 0 then
              Except.error "iOS build number generation failed: returned invalid build number".data
            else Except.ok (some iosResult.buildNumber, some iosResult.buildVersion)
          else Except.ok (none, none)
        match iosStep with
        | Except.error e => Except.error e
        | Except.ok (iosBuildNumber, iosBuildNumberString) =>
          Except.ok
            { major := major, minor := minor, patch := patch,
              branchName := branchName, commitHash := commitHash,
              version := version, appReleaseVersion := appReleaseVersion,
              androidVersionCode := androidVersionCode,
              iosBuildNumber := iosBuildNumber,
              iosBuildNumberString := iosBuildNumberString }

example :
    generatePackageVersionCore "v1.2".data 42 "main".data "abcdef12".data
      false 0 false (composeIosBuildVersion 0 none) =
    Except.ok
      { major := "1".data, minor := "2".data, patch := 42,
        branchName := "main".data, commitHash := "abcdef12".data,
        version := "1.2.42-main.abcdef12".data,
        appReleaseVersion := "1.2.42".data,
        androidVersionCode := none, iosBuildNumber := none,
        iosBuildNumberString := none } := rfl

/-! Helper lemmas. -/

theorem sanitizeChar_idem (c : Char) : sanitizeChar (sanitizeChar c) = sanitizeChar c := by
  by_cases h : isAsciiAlnum c = true
  · simp [sanitizeChar, h]
  · simp [sanitizeChar, h]

theorem sanitizeChar_ne_slash (c : Char) : sanitizeChar c ≠ '/' := by
  unfold sanitizeChar
  split
  · intro h
    subst h
    simp_all [isAsciiAlnum]
  · decide

theorem dropLit_eq_append : ∀ (p s t : List Char), dropLit p s = some t → s = p ++ t := by
  intro p
  induction p with
  | nil =>
    intro s t h
    have := (by simpa [dropLit] using h : s = t)
    simpa using this
  | cons a ps ih =>
    intro s t h
    cases s with
    | nil => simp [dropLit] at h
    | cons b ss =>
      simp only [dropLit] at h
      by_cases hab : a = b
      · subst hab
        simp only [if_pos rfl] at h
        simpa using ih ss t h
      · simp [hab] at h

theorem stripRefs_of_no_slash (s : List Char) (h : '/' ∉ s) : stripRefs s = s := by
  unfold stripRefs
  cases h1 : dropLit "refs/heads/".data s with
  | some t =>
    exact absurd (by rw [dropLit_eq_append _ _ _ h1]; simp) h
  | none =>
    cases h2 : dropLit "refs/pull/".data s with
    | some t =>
      exact absurd (by rw [dropLit_eq_append _ _ _ h2]; simp) h
    | none => rfl

theorem cleanBranchName_no_slash (s : List Char) : '/' ∉ cleanBranchName s := by
  intro hmem
  unfold cleanBranchName at hmem
  rcases List.mem_map.mp hmem with ⟨c, _, hc⟩
  exact sanitizeChar_ne_slash c hc

theorem dropLit_self_append : ∀ (p s : List Char), dropLit p (p ++ s) = some s := by
  intro p
  induction p with
  | nil => intro s; simp [dropLit]
  | cons a ps ih => intro s; simp [dropLit, ih]

/-- Claim C9: cleanBranchName strips a refs/heads/ or refs/pull/ prefix and
replaces every character outside [A-Za-z0-9] with a hyphen; in particular it
maps feature/new_feature@123 to feature-new-feature-123, and it is idempotent:
cleaning an already-cleaned name returns it unchanged. -/
theorem cleanBranchName_spec (s : List Char) :
    cleanBranchName "feature/new_feature@123".data = "feature-new-feature-123".data ∧
    cleanBranchName (cleanBranchName s) = cleanBranchName s ∧
    cleanBranchName ("refs/heads/".data ++ s) = s.map sanitizeChar ∧
    cleanBranchName ("refs/pull/".data ++ s) = s.map sanitizeChar := by
  refine ⟨by decide, ?_, ?_, ?_⟩
  · show cleanBranchName (cleanBranchName s) = cleanBranchName s
    have h1 : stripRefs (cleanBranchName s) = cleanBranchName s :=
      stripRefs_of_no_slash _ (cleanBranchName_no_slash s)
    show (stripRefs (cleanBranchName s)).map sanitizeChar = cleanBranchName s
    rw [h1]
    unfold cleanBranchName
    rw [List.map_map]
    exact List.map_congr_left fun c _ => sanitizeChar_idem c
  · unfold cleanBranchName stripRefs
    rw [dropLit_self_append]
  · unfold cleanBranchName stripRefs
    have hnone : dropLit "refs/heads/".data ("refs/pull/".data ++ s) = none := by
      simp [dropLit]
    rw [hnone, dropLit_self_append]

theorem jsSliceInner_length_lt (s : List Char) (h : s ≠ []) :
    (jsSliceInner s).length < s.length := by
  have hpos : 0 < s.length := List.length_pos.mpr h
  simp only [jsSliceInner, List.length_take, List.length_drop]
  omega

theorem isBase64Aux_fuel_irrel :
    ∀ (f1 f2 : Nat) (s : List Char) (e : Bool), s.length < f1 → s.length < f2 →
      isBase64Aux f1 s e = isBase64Aux f2 s e := by
  intro f1
  induction f1 with
  | zero => intro f2 s e h1 _; omega
  | succ g ih =>
    intro f2 s e h1 h2
    cases f2 with
    | zero => omega
    | succ k =>
      simp only [isBase64Aux]
      by_cases hemp : s.isEmpty = true
      · rw [if_pos hemp, if_pos hemp]
      · rw [if_neg hemp, if_neg hemp]
        by_cases hq : quoteWrapped s = true
        · rw [if_pos hq, if_pos hq]
          have hne : s ≠ [] := by
            intro h; subst h; simp at hemp
          have hlt := jsSliceInner_length_lt s hne
          exact ih k (jsSliceInner s) e (by omega) (by omega)
        · rw [if_neg hq, if_neg hq]

theorem isBase64_unfold (s : List Char) (e : Bool) :
    isBase64 s e =
      (if s.isEmpty then false
       else if quoteWrapped s then isBase64 (jsSliceInner s) e
       else isBase64Body s e) := by
  show isBase64Aux (s.length + 1) s e = _
  simp only [isBase64Aux]
  by_cases hemp : s.isEmpty = true
  · rw [if_pos hemp, if_pos hemp]
  · rw [if_neg hemp, if_neg hemp]
    by_cases hq : quoteWrapped s = true
    · rw [if_pos hq, if_pos hq]
      have hne : s ≠ [] := by intro h; subst h; simp at hemp
      exact isBase64Aux_fuel_irrel _ _ _ _ (jsSliceInner_length_lt s hne)
        (Nat.lt_succ_self _)
    · rw [if_neg hq, if_neg hq]

/-- Claim C10: isBase64 is total.  Its quote-stripping self-recursion, taken
when the string starts and ends with a double quote, recurses on the slice
that drops those characters, whose length is strictly smaller; in particular
the one-character double-quote input recurses on the empty string, which
immediately returns false. -/
theorem isBase64_termination (s : List Char) (e : Bool)
    (hq : quoteWrapped s = true) :
    (jsSliceInner s).length < s.length ∧
    isBase64 s e = isBase64 (jsSliceInner s) e ∧
    jsSliceInner ['"'] = [] ∧
    isBase64 ['"'] e = false ∧ isBase64 [] e = false := by
  have hne : s ≠ [] := by
    intro h
    subst h
    simp [quoteWrapped] at hq
  refine ⟨jsSliceInner_length_lt s hne, ?_, by decide, ?_, by cases e <;> decide⟩
  · rw [isBase64_unfold]
    have hemp : ¬ (s.isEmpty = true) := by simpa using hne
    rw [if_neg hemp, if_pos hq]
  · cases e <;> decide

/-- Witness for C10 at the concrete quote-wrapped input consisting of a quote,
the letter a, and a quote. -/
theorem isBase64_termination_witness :
    quoteWrapped ['"', 'a', '"'] = true ∧
    ((jsSliceInner ['"', 'a', '"']).length < (['"', 'a', '"'] : List Char).length ∧
      isBase64 ['"', 'a', '"'] true = isBase64 (jsSliceInner ['"', 'a', '"']) true ∧
      jsSliceInner ['"'] = [] ∧
      isBase64 ['"'] true = false ∧ isBase64 [] true = false) :=
  ⟨by decide, isBase64_termination ['"', 'a', '"'] true (by decide)⟩

/-- Claim C7: encodeCommitHash equals parseInt of the first eight hex
characters at base 16 reduced mod 2147483647, hence is bounded by 2147483647
(and non-negative); composeIosBuildVersion appends .encodedCommitHash to the
build number when a commit hash is provided and omits it otherwise. -/
theorem encodeCommitHash_spec (hash : List Char) (bn : Int)
    (hne : hash ≠ [])
    (hhex : ∀ c ∈ hash.take 8, isHexDigitCh c = true) :
    encodeCommitHash hash =
        JsNum.int (Int.tmod (hexDigitsToNat (hash.take 8) : Int) 2147483647) ∧
    (∀ v : Int, encodeCommitHash hash = JsNum.int v → 0 ≤ v ∧ v ≤ 2147483647) ∧
    (composeIosBuildVersion bn (some hash)).buildVersion =
        intToStr bn ++ '.' :: jsNumToStr (encodeCommitHash hash) ∧
    (composeIosBuildVersion bn (some hash)).encodedCommitHash =
        some (encodeCommitHash hash) ∧
    (composeIosBuildVersion bn none).buildVersion = intToStr bn ∧
    (composeIosBuildVersion bn none).encodedCommitHash = none := by
  have htw : (hash.take 8).takeWhile isHexDigitCh = hash.take 8 :=
    List.takeWhile_eq_self_iff.mpr hhex
  have htne : hash.take 8 ≠ [] := by
    intro h0
    rcases List.take_eq_nil_iff.mp h0 with h8 | hnil
    · simp at h8
    · exact hne hnil
  have hemp : ((hash.take 8).takeWhile isHexDigitCh).isEmpty = false := by
    rw [htw]
    simpa using htne
  have henc : encodeCommitHash hash =
      JsNum.int (Int.tmod (hexDigitsToNat (hash.take 8) : Int) 2147483647) := by
    have htke : (hash.take 8).isEmpty = false := by simpa using htne
    unfold encodeCommitHash jsParseIntHex
    simp only [hemp, htw, htke, Bool.false_eq_true, if_false]
  have hel : hash.isEmpty = false := by simpa using hne
  refine ⟨henc, ?_, ?_, ?_, ?_, ?_⟩
  · intro v hv
    rw [henc] at hv
    have hv' : Int.tmod (hexDigitsToNat (hash.take 8) : Int) 2147483647 = v := by
      injection hv
    subst hv'
    have hx : (0 : Int) ≤ (hexDigitsToNat (hash.take 8) : Int) := Int.natCast_nonneg _
    constructor
    · exact Int.tmod_nonneg _ hx
    · rw [Int.tmod_eq_emod hx (by norm_num)]
      have := Int.emod_lt_of_pos (hexDigitsToNat (hash.take 8) : Int)
        (show (0 : Int) < 2147483647 by norm_num)
      omega
  · simp [composeIosBuildVersion, hel]
  · simp [composeIosBuildVersion, hel]
  · rfl
  · rfl

/-- Witness for C7 at the commit hash abcdef12 and build number 6. -/
theorem encodeCommitHash_spec_witness :
    encodeCommitHash "abcdef12".data = JsNum.int 734916371 ∧
    (composeIosBuildVersion 6 (some "abcdef12".data)).buildVersion =
      "6.734916371".data := by
  have h := encodeCommitHash_spec "abcdef12".data 6 (by decide) (by decide)
  refine ⟨?_, ?_⟩
  · rw [h.1]
    decide
  · rw [h.2.2.1]
    decide

theorem isVersionTag_head (t : List Char) (h : isVersionTag t = true) :
    t.head? = some 'v' := by
  cases t with
  | nil => simp [isVersionTag] at h
  | cons c r =>
    simp only [isVersionTag, Bool.and_eq_true, decide_eq_true_eq] at h
    rw [h.1]
    rfl

theorem gitTagFilter_eq (lines : List (List Char))
    (hclean : ∀ t ∈ lines, jsTrim t = t) :
    (lines.filter (fun t => !t.isEmpty)).filter (fun t => isVersionTag (jsTrim t)) =
      lines.filter isVersionTag := by
  rw [List.filter_filter]
  refine List.filter_congr fun a ha => ?_
  rw [hclean a ha]
  cases a with
  | nil => simp [isVersionTag]
  | cons c r => simp

theorem githubTagFilter_eq (names : List (List Char)) :
    (names.filter (fun t => t.head? == some 'v')).filter isVersionTag =
      names.filter isVersionTag := by
  rw [List.filter_filter]
  refine List.filter_congr fun a _ => ?_
  cases hv : isVersionTag a
  · simp
  · simp [isVersionTag_head a hv]

/-- Claim C8: tag selection admits only tags of the exact shape v digits dot
digits (v1, v1.2.3, release-1.0 never match), returns the first matching tag
in the recency order of the input list, and fails with an error when no tag
matches; both for the local-git listing (whose entries carry no surrounding
whitespace, as git tag names cannot contain it) and for the GitHub API
listing. -/
theorem tagSelection_spec (lines names : List (List Char))
    (hclean : ∀ t ∈ lines, jsTrim t = t) :
    (∀ t, getLatestTagFromLines lines = Except.ok t →
        isVersionTag t = true ∧ (lines.filter isVersionTag).head? = some t) ∧
    ((lines.filter isVersionTag).isEmpty = true →
        ∃ e, getLatestTagFromLines lines = Except.error e) ∧
    (∀ t, getLatestTagFromGitHub names = Except.ok t →
        isVersionTag t = true ∧ (names.filter isVersionTag).head? = some t) ∧
    ((names.filter isVersionTag).isEmpty = true →
        ∃ e, getLatestTagFromGitHub names = Except.error e) ∧
    isVersionTag "v1".data = false ∧ isVersionTag "v1.2.3".data = false ∧
    isVersionTag "release-1.0".data = false ∧ isVersionTag "v1.2".data = true := by
  have hfil := gitTagFilter_eq lines hclean
  have hfil2 := githubTagFilter_eq names
  refine ⟨?_, ?_, ?_, ?_, by decide, by decide, by decide, by decide⟩
  · intro t hok
    unfold getLatestTagFromLines at hok
    by_cases hv : (lines.filter (fun t => !t.isEmpty)).isEmpty = true
    · rw [if_pos hv] at hok
      simp at hok
    · rw [if_neg hv] at hok
      rw [hfil] at hok
      cases hm : lines.filter isVersionTag with
      | nil => rw [hm] at hok; simp at hok
      | cons t0 rest =>
        rw [hm] at hok
        have ht : t = t0 := by
          have := hok
          simp only [Except.ok.injEq] at this
          exact this.symm
        subst ht
        have hmem : t ∈ lines.filter isVersionTag := by
          rw [hm]
          exact List.mem_cons_self _ _
        exact ⟨List.of_mem_filter hmem, rfl⟩
  · intro hempty
    unfold getLatestTagFromLines
    by_cases hv : (lines.filter (fun t => !t.isEmpty)).isEmpty = true
    · rw [if_pos hv]
      exact ⟨_, rfl⟩
    · rw [if_neg hv, hfil, List.isEmpty_iff.mp hempty]
      exact ⟨_, rfl⟩
  · intro t hok
    unfold getLatestTagFromGitHub at hok
    by_cases hn : names.isEmpty = true
    · rw [if_pos hn] at hok
      simp at hok
    · rw [if_neg hn] at hok
      by_cases hv : (names.filter (fun t => t.head? == some 'v')).isEmpty = true
      · rw [if_pos hv] at hok
        simp at hok
      · rw [if_neg hv] at hok
        rw [hfil2] at hok
        cases hm : names.filter isVersionTag with
        | nil => rw [hm] at hok; simp at hok
        | cons t0 rest =>
          rw [hm] at hok
          have ht : t = t0 := by
            have := hok
            simp only [Except.ok.injEq] at this
            exact this.symm
          subst ht
          have hmem : t ∈ names.filter isVersionTag := by
            rw [hm]
            exact List.mem_cons_self _ _
          exact ⟨List.of_mem_filter hmem, rfl⟩
  · intro hempty
    unfold getLatestTagFromGitHub
    by_cases hn : names.isEmpty = true
    · rw [if_pos hn]
      exact ⟨_, rfl⟩
    · rw [if_neg hn]
      by_cases hv : (names.filter (fun t => t.head? == some 'v')).isEmpty = true
      · rw [if_pos hv]
        exact ⟨_, rfl⟩
      · rw [if_neg hv, hfil2, List.isEmpty_iff.mp hempty]
        exact ⟨_, rfl⟩

/-- Witness for C8 at the concrete tag lists of the claim: v1, v1.2.3,
release-1.0 and v1.2 in recency order, for both backends. -/
theorem tagSelection_spec_witness :
    (∀ t, getLatestTagFromLines ["v1".data, "v1.2.3".data, "release-1.0".data, "v1.2".data] = Except.ok t →
        isVersionTag t = true ∧
          ((["v1".data, "v1.2.3".data, "release-1.0".data, "v1.2".data] :
            List (List Char)).filter isVersionTag).head? = some t) ∧
    (((["v1".data, "v1.2.3".data, "release-1.0".data, "v1.2".data] :
        List (List Char)).filter isVersionTag).isEmpty = true →
        ∃ e, getLatestTagFromLines ["v1".data, "v1.2.3".data, "release-1.0".data, "v1.2".data] = Except.error e) ∧
    (∀ t, getLatestTagFromGitHub ["release-1.0".data, "v1".data, "v1.2.3".data] = Except.ok t →
        isVersionTag t = true ∧
          ((["release-1.0".data, "v1".data, "v1.2.3".data] :
            List (List Char)).filter isVersionTag).head? = some t) ∧
    (((["release-1.0".data, "v1".data, "v1.2.3".data] :
        List (List Char)).filter isVersionTag).isEmpty = true →
        ∃ e, getLatestTagFromGitHub ["release-1.0".data, "v1".data, "v1.2.3".data] = Except.error e) ∧
    isVersionTag "v1".data = false ∧ isVersionTag "v1.2.3".data = false ∧
    isVersionTag "release-1.0".data = false ∧ isVersionTag "v1.2".data = true :=
  tagSelection_spec ["v1".data, "v1.2.3".data, "release-1.0".data, "v1.2".data]
    ["release-1.0".data, "v1".data, "v1.2.3".data] (by decide)

theorem processCodes_fst_le (name : Option (List Char)) :
    ∀ (cs : List (List Char)) (h m : Int), h ≤ (processCodes name cs (h, m)).1 := by
  intro cs
  induction cs with
  | nil => intro h m; simp [processCodes]
  | cons c rest ih =>
    intro h m
    cases hp : jsParseInt c with
    | nan => simpa [processCodes, hp] using ih h m
    | int vc =>
      by_cases hgt : vc > h
      · simp only [processCodes, hp, if_pos hgt]
        exact le_trans (le_of_lt hgt) (ih vc _)
      · simpa [processCodes, hp, hgt] using ih h m

theorem processCodes_fst_bound (name : Option (List Char)) :
    ∀ (cs : List (List Char)) (h m : Int) (c : List Char) (v : Int),
      c ∈ cs → jsParseInt c = JsNum.int v → v ≤ (processCodes name cs (h, m)).1 := by
  intro cs
  induction cs with
  | nil => intro h m c v hc; exact absurd hc (List.not_mem_nil c)
  | cons c0 rest ih =>
    intro h m c v hc hv
    rcases List.mem_cons.mp hc with hc0 | hcr
    · subst hc0
      by_cases hgt : v > h
      · simp only [processCodes, hv, if_pos hgt]
        exact processCodes_fst_le name rest v _
      · push_neg at hgt
        simp only [processCodes, hv, if_neg (by omega : ¬ v > h)]
        exact le_trans hgt (processCodes_fst_le name rest h m)
    · cases hp : jsParseInt c0 with
      | nan => simpa [processCodes, hp] using ih h m c v hcr hv
      | int vc =>
        by_cases hgt : vc > h
        · simp only [processCodes, hp, if_pos hgt]
          exact ih vc _ c v hcr hv
        · simpa [processCodes, hp, hgt] using ih h m c v hcr hv

theorem processReleases_fst_le :
    ∀ (rs : List Release) (h m : Int), h ≤ (processReleases rs h m).1 := by
  intro rs
  induction rs with
  | nil => intro h m; simp [processReleases]
  | cons r rest ih =>
    intro h m
    simp only [processReleases]
    exact le_trans (processCodes_fst_le r.name r.versionCodes h m) (ih _ _)

theorem processReleases_fst_bound :
    ∀ (rs : List Release) (h m : Int) (r : Release) (c : List Char) (v : Int),
      r ∈ rs → c ∈ r.versionCodes → jsParseInt c = JsNum.int v →
      v ≤ (processReleases rs h m).1 := by
  intro rs
  induction rs with
  | nil => intro h m r c v hr; exact absurd hr (List.not_mem_nil r)
  | cons r0 rest ih =>
    intro h m r c v hr hc hv
    rcases List.mem_cons.mp hr with hr0 | hrr
    · subst hr0
      simp only [processReleases]
      exact le_trans (processCodes_fst_bound r.name r.versionCodes h m c v hc hv)
        (processReleases_fst_le rest _ _)
    · simp only [processReleases]
      exact ih _ _ r c v hrr hc hv

theorem processCodes_frozen (name : Option (List Char)) :
    ∀ (cs : List (List Char)) (h m : Int),
      (∀ c ∈ cs, ∀ v, jsParseInt c = JsNum.int v → v ≤ h) →
      processCodes name cs (h, m) = (h, m) := by
  intro cs
  induction cs with
  | nil => intro h m _; rfl
  | cons c0 rest ih =>
    intro h m hall
    cases hp : jsParseInt c0 with
    | nan =>
      simp only [processCodes, hp]
      exact ih h m fun c hc v hv => hall c (List.mem_cons_of_mem _ hc) v hv
    | int vc =>
      have hle : vc ≤ h := hall c0 (List.mem_cons_self _ _) vc hp
      simp only [processCodes, hp, if_neg (by omega : ¬ vc > h)]
      exact ih h m fun c hc v hv => hall c (List.mem_cons_of_mem _ hc) v hv

theorem processReleases_frozen :
    ∀ (rs : List Release) (h m : Int),
      (∀ r ∈ rs, ∀ c ∈ r.versionCodes, ∀ v, jsParseInt c = JsNum.int v → v ≤ h) →
      processReleases rs h m = (h, m) := by
  intro rs
  induction rs with
  | nil => intro h m _; rfl
  | cons r0 rest ih =>
    intro h m hall
    have h0 : processCodes r0.name r0.versionCodes (h, m) = (h, m) :=
      processCodes_frozen r0.name r0.versionCodes h m
        (fun c hc v hv => hall r0 (List.mem_cons_self _ _) c hc v hv)
    simp only [processReleases, h0]
    exact ih h m fun r hr c hc v hv => hall r (List.mem_cons_of_mem _ hr) c hc v hv

/-- Counterexample to claim C2 as stated: the version-code string -7 is
parsable (parseInt yields -7), so per the claim the result should be
highest + 1 = -6 with an equal current major version, but the code treats
non-positive codes like unparsable ones and returns 1. -/
theorem androidVersionCode_nonpositive_counterexample :
    jsParseInt "-7".data = JsNum.int (-7) ∧
    getAndroidVersionCode false none [⟨[⟨["-7".data], some "1.0.0".data⟩]⟩] 1 none = 1 ∧
    ¬ ((-7 : Int) + 1 = 1) := by decide

/-- Claim C2 (amended): whenever processing the releases yields a positive
highest version code h with associated major m, the Android counter returns
h plus the majorVersionIncrement-or-10 under a strictly larger current major
and h + 1 otherwise; when no version code parses to a positive integer
(including codes parsing to zero or negative values) the counter returns 1.
In particular the claim's examples hold: 106 for current major 1, and
105 + majorVersionIncrement for current major 2. -/
theorem androidVersionCode_increment_policy (rs : List Release) (maj : Int)
    (inc : Option Int) (h m : Int)
    (hpr : processReleases rs 0 0 = (h, m)) :
    (0 < h → getAndroidVersionCode false none [⟨rs⟩] maj inc =
        (if maj > m then h + jsOrDefault inc 10 else h + 1)) ∧
    (h = 0 → getAndroidVersionCode false none [⟨rs⟩] maj inc = 1) ∧
    getAndroidVersionCode false none [] maj inc = 1 ∧
    getAndroidVersionCode false none
      [⟨[⟨["100".data, "101".data], some "1.0.0".data⟩,
         ⟨["105".data], some "1.1.0".data⟩]⟩] 1 none = 106 ∧
    (∀ i : Int, ¬ i = 0 →
      getAndroidVersionCode false none
        [⟨[⟨["100".data, "101".data], some "1.0.0".data⟩,
           ⟨["105".data], some "1.1.0".data⟩]⟩] 2 (some i) = 105 + i) := by
  have hpipe : (getPlayStoreVersionInfoCore false none [⟨rs⟩]).1 =
      (if h = 0 then none else some (h, m)) := by
    simp only [getPlayStoreVersionInfoCore, if_neg (by simp : ¬ (false = true)),
      List.foldl_cons, List.foldl_nil]
    norm_num
    rw [hpr]
  refine ⟨?_, ?_, rfl, by decide, ?_⟩
  · intro hpos
    unfold getAndroidVersionCode
    rw [hpipe, if_neg (by omega : ¬ h = 0)]
    rfl
  · intro hz
    unfold getAndroidVersionCode
    rw [hpipe, if_pos hz]
    rfl
  · intro i hi
    have hconc : (getPlayStoreVersionInfoCore false none
        [⟨[⟨["100".data, "101".data], some "1.0.0".data⟩,
           ⟨["105".data], some "1.1.0".data⟩]⟩]).1 = some (105, 1) := by decide
    unfold getAndroidVersionCode
    rw [hconc]
    simp only [getAndroidVersionCodeCore, jsOrDefault, if_neg hi,
      if_pos (by norm_num : (2 : Int) > 1)]

/-- Witness for the amended C2 at the claim's example data: highest code 105
with associated major 1. -/
theorem androidVersionCode_increment_policy_witness :
    (0 < (105 : Int) → getAndroidVersionCode false none
        [⟨[⟨["100".data, "101".data], some "1.0.0".data⟩,
           ⟨["105".data], some "1.1.0".data⟩]⟩] 1 none =
        (if (1 : Int) > 1 then 105 + jsOrDefault none 10 else 105 + 1)) ∧
    ((105 : Int) = 0 → getAndroidVersionCode false none
        [⟨[⟨["100".data, "101".data], some "1.0.0".data⟩,
           ⟨["105".data], some "1.1.0".data⟩]⟩] 1 none = 1) ∧
    getAndroidVersionCode false none [] 1 none = 1 ∧
    getAndroidVersionCode false none
      [⟨[⟨["100".data, "101".data], some "1.0.0".data⟩,
         ⟨["105".data], some "1.1.0".data⟩]⟩] 1 none = 106 ∧
    (∀ i : Int, ¬ i = 0 →
      getAndroidVersionCode false none
        [⟨[⟨["100".data, "101".data], some "1.0.0".data⟩,
           ⟨["105".data], some "1.1.0".data⟩]⟩] 2 (some i) = 105 + i) :=
  androidVersionCode_increment_policy
    [⟨["100".data, "101".data], some "1.0.0".data⟩,
     ⟨["105".data], some "1.1.0".data⟩] 1 none 105 1 (by decide)

/-- Counterexample to claim C3 as stated: two tracks both report maximum
version code 100, the first with recorded major 1 and the second with recorded
major 3; combining keeps major 1 (the earlier track's value), not the larger
major 3. -/
theorem trackTie_counterexample :
    processReleases [⟨["100".data], some "1.0.0".data⟩] 0 0 = (100, 1) ∧
    processReleases [⟨["100".data], some "3.0.0".data⟩] 0 0 = (100, 3) ∧
    (getPlayStoreVersionInfoCore false none
      [⟨[⟨["100".data], some "1.0.0".data⟩]⟩,
       ⟨[⟨["100".data], some "3.0.0".data⟩]⟩]).1 = some (100, 1) ∧
    ¬ (some ((100 : Int), (1 : Int)) = some ((100 : Int), max (1 : Int) 3)) := by
  decide

/-- Claim C3 (amended): when two tracks report the identical positive maximum
version code, the combined result keeps the major version recorded by the
earlier track in iteration order; the later track's recorded major is ignored
because only a strictly larger code updates the running state. -/
theorem trackTie_first_major (t1 t2 : TrackData) (h m1 m2 : Int)
    (h1 : processReleases t1.releases 0 0 = (h, m1))
    (h2 : processReleases t2.releases 0 0 = (h, m2))
    (hpos : 0 < h) :
    (getPlayStoreVersionInfoCore false none [t1, t2]).1 = some (h, m1) := by
  have hb : ∀ r ∈ t2.releases, ∀ c ∈ r.versionCodes, ∀ v,
      jsParseInt c = JsNum.int v → v ≤ h := by
    intro r hr c hc v hv
    have := processReleases_fst_bound t2.releases 0 0 r c v hr hc hv
    rw [h2] at this
    exact this
  have hfrozen : processReleases t2.releases h m1 = (h, m1) :=
    processReleases_frozen t2.releases h m1 hb
  have hfold : List.foldl (fun (acc : Int × Int) t => processReleases t.releases acc.1 acc.2)
      ((0 : Int), (0 : Int)) [t1, t2] = (h, m1) := by
    simp only [List.foldl_cons, List.foldl_nil]
    rw [show processReleases t1.releases ((0 : Int), (0 : Int)).1 ((0 : Int), (0 : Int)).2 =
      (h, m1) from h1]
    simpa using hfrozen
  simp only [getPlayStoreVersionInfoCore, if_neg (by simp : ¬ (false = true))]
  norm_num
  rw [h1]
  norm_num
  rw [hfrozen]
  exact ⟨by omega, rfl⟩

/-- Witness for the amended C3 at the counterexample's concrete tracks. -/
theorem trackTie_first_major_witness :
    (getPlayStoreVersionInfoCore false none
      [⟨[⟨["100".data], some "1.0.0".data⟩]⟩,
       ⟨[⟨["100".data], some "3.0.0".data⟩]⟩]).1 = some (100, 1) :=
  trackTie_first_major ⟨[⟨["100".data], some "1.0.0".data⟩]⟩
    ⟨[⟨["100".data], some "3.0.0".data⟩]⟩ 100 1 3 (by decide) (by decide) (by norm_num)

/-- Counterexample to claim C4 as stated: a specified track whose query
returned one release (its only version code does not parse) still triggers
the all-tracks query, although the claim allows that query only when no track
was specified or the track returned no releases. -/
theorem allTracksQuery_counterexample :
    (getPlayStoreVersionInfoCore true (some ⟨[⟨["abc".data], none⟩]⟩) []).2 = true ∧
    (([⟨["abc".data], none⟩] : List Release).length = 1) := by decide

/-- Claim C4 (amended): the all-tracks query is performed exactly when no
track was specified, or the specified track's query returned nothing, or the
specified track's releases contain no version code parsing to a positive
integer (processing them yields highest code 0); when it is skipped the
result is exactly the specified track's processed data. -/
theorem allTracksQuery_condition (trackGiven : Bool) (trackData : Option TrackData)
    (allTracks : List TrackData) :
    ((getPlayStoreVersionInfoCore trackGiven trackData allTracks).2 = true ↔
      trackGiven = false ∨ trackData = none ∨
        (∃ td, trackData = some td ∧ (processReleases td.releases 0 0).1 = 0)) ∧
    ((getPlayStoreVersionInfoCore trackGiven trackData allTracks).2 = false →
      ∃ td, trackData = some td ∧
        (getPlayStoreVersionInfoCore trackGiven trackData allTracks).1 =
          some (processReleases td.releases 0 0)) := by
  cases trackGiven with
  | false =>
    constructor
    · simp [getPlayStoreVersionInfoCore]
    · intro hfalse
      exfalso
      simp [getPlayStoreVersionInfoCore] at hfalse
  | true =>
    cases trackData with
    | none =>
      constructor
      · simp [getPlayStoreVersionInfoCore]
      · intro hfalse
        exfalso
        simp [getPlayStoreVersionInfoCore] at hfalse
    | some td =>
      have hacc : (if td.releases.isEmpty then ((0 : Int), (0 : Int))
          else processReleases td.releases 0 0) = processReleases td.releases 0 0 := by
        by_cases he : td.releases.isEmpty = true
        · rw [if_pos he, List.isEmpty_iff.mp he]
          rfl
        · rw [if_neg he]
      have hcore : getPlayStoreVersionInfoCore true (some td) allTracks =
          (if (processReleases td.releases 0 0).1 = 0 then
            ((if (List.foldl (fun (acc : Int × Int) t => processReleases t.releases acc.1 acc.2)
                  (processReleases td.releases 0 0) allTracks).1 = 0 then none
              else some (List.foldl (fun (acc : Int × Int) t => processReleases t.releases acc.1 acc.2)
                  (processReleases td.releases 0 0) allTracks)), true)
           else (some (processReleases td.releases 0 0), false)) := by
        simp only [getPlayStoreVersionInfoCore, hacc, eq_self_iff_true, if_true]
      by_cases hz : (processReleases td.releases 0 0).1 = 0
      · constructor
        · rw [hcore, if_pos hz]
          constructor
          · intro _
            exact Or.inr (Or.inr ⟨td, rfl, hz⟩)
          · intro _
            rfl
        · intro hfalse
          rw [hcore, if_pos hz] at hfalse
          exact absurd hfalse (by simp)
      · constructor
        · rw [hcore, if_neg hz]
          constructor
          · intro hft
            exact absurd hft (by simp)
          · rintro (hl | hl | ⟨td', htd', hz'⟩)
            · exact absurd hl (by simp)
            · exact absurd hl (by simp)
            · have heq : td' = td := by
                have h' := htd'
                simp only [Option.some.injEq] at h'
                exact h'.symm
              subst heq
              exact absurd hz' hz
        · intro _
          refine ⟨td, rfl, ?_⟩
          rw [hcore, if_neg hz]

/-- Witness for the amended C4 at a specified track holding a positive
version code: the all-tracks query is skipped and the track's own data is
the result. -/
theorem allTracksQuery_condition_witness :
    (((getPlayStoreVersionInfoCore true (some ⟨[⟨["100".data], some "1.0.0".data⟩]⟩) []).2 = true ↔
      true = false ∨ (some (⟨[⟨["100".data], some "1.0.0".data⟩]⟩ : TrackData)) = none ∨
        (∃ td, (some (⟨[⟨["100".data], some "1.0.0".data⟩]⟩ : TrackData)) = some td ∧
          (processReleases td.releases 0 0).1 = 0)) ∧
    ((getPlayStoreVersionInfoCore true (some ⟨[⟨["100".data], some "1.0.0".data⟩]⟩) []).2 = false →
      ∃ td, (some (⟨[⟨["100".data], some "1.0.0".data⟩]⟩ : TrackData)) = some td ∧
        (getPlayStoreVersionInfoCore true (some ⟨[⟨["100".data], some "1.0.0".data⟩]⟩) []).1 =
          some (processReleases td.releases 0 0))) :=
  allTracksQuery_condition true (some ⟨[⟨["100".data], some "1.0.0".data⟩]⟩) []

theorem composeIosBuildVersion_buildNumber (n : Int) (ch : Option (List Char)) :
    (composeIosBuildVersion n ch).buildNumber = n := by
  cases ch with
  | none => rfl
  | some hs =>
    by_cases he : hs.isEmpty = true
    · simp [composeIosBuildVersion, he]
    · simp [composeIosBuildVersion, he]

theorem highestBuildLoop_le (app : List Char) :
    ∀ (data : List BuildRecord) (h : Int), h ≤ highestBuildLoop app data h := by
  intro data
  induction data with
  | nil => intro h; simp [highestBuildLoop]
  | cons b bs ih =>
    intro h
    cases ha : b.attributes with
    | none => simpa [highestBuildLoop, ha] using ih h
    | some a =>
      by_cases hv : a.version = app
      · cases hp : jsParseInt a.buildNumber with
        | nan => simpa [highestBuildLoop, ha, hv, hp] using ih h
        | int n =>
          by_cases hgt : n > h
          · simp only [highestBuildLoop, ha, hv, hp, if_pos rfl, if_pos hgt]
            exact le_trans (le_of_lt hgt) (ih n)
          · simpa [highestBuildLoop, ha, hv, hp, hgt] using ih h
      · simpa [highestBuildLoop, ha, hv] using ih h

theorem highestBuildLoop_bound (app : List Char) :
    ∀ (data : List BuildRecord) (h : Int) (b : BuildRecord) (a : BuildAttr) (v : Int),
      b ∈ data → b.attributes = some a → a.version = app →
      jsParseInt a.buildNumber = JsNum.int v → v ≤ highestBuildLoop app data h := by
  intro data
  induction data with
  | nil => intro h b a v hb; exact absurd hb (List.not_mem_nil b)
  | cons b0 bs ih =>
    intro h b a v hb hatt hver hp
    rcases List.mem_cons.mp hb with hb0 | hbr
    · subst hb0
      by_cases hgt : v > h
      · simp only [highestBuildLoop, hatt, hver, if_pos rfl, hp, if_pos hgt]
        exact highestBuildLoop_le app bs v
      · push_neg at hgt
        simp only [highestBuildLoop, hatt, hver, if_pos rfl, hp,
          if_neg (by omega : ¬ v > h)]
        exact le_trans hgt (highestBuildLoop_le app bs h)
    · cases ha0 : b0.attributes with
      | none => simpa [highestBuildLoop, ha0] using ih h b a v hbr hatt hver hp
      | some a0 =>
        by_cases hv0 : a0.version = app
        · cases hp0 : jsParseInt a0.buildNumber with
          | nan => simpa [highestBuildLoop, ha0, hv0, hp0] using ih h b a v hbr hatt hver hp
          | int n =>
            by_cases hgt0 : n > h
            · simp only [highestBuildLoop, ha0, hv0, hp0, if_pos rfl, if_pos hgt0]
              exact ih n b a v hbr hatt hver hp
            · simpa [highestBuildLoop, ha0, hv0, hp0, hgt0] using ih h b a v hbr hatt hver hp
        · simpa [highestBuildLoop, ha0, hv0] using ih h b a v hbr hatt hver hp

theorem highestBuildLoop_attain (app : List Char) :
    ∀ (data : List BuildRecord) (h : Int),
      highestBuildLoop app data h = h ∨
      ∃ b ∈ data, ∃ a, b.attributes = some a ∧ a.version = app ∧
        jsParseInt a.buildNumber = JsNum.int (highestBuildLoop app data h) := by
  intro data
  induction data with
  | nil => intro h; exact Or.inl rfl
  | cons b0 bs ih =>
    intro h
    cases ha0 : b0.attributes with
    | none =>
      rcases ih h with heq | ⟨b, hb, a, h1, h2, h3⟩
      · exact Or.inl (by simpa [highestBuildLoop, ha0] using heq)
      · exact Or.inr ⟨b, List.mem_cons_of_mem _ hb, a, h1, h2, by
          simpa [highestBuildLoop, ha0] using h3⟩
    | some a0 =>
      by_cases hv0 : a0.version = app
      · cases hp0 : jsParseInt a0.buildNumber with
        | nan =>
          rcases ih h with heq | ⟨b, hb, a, h1, h2, h3⟩
          · exact Or.inl (by simpa [highestBuildLoop, ha0, hv0, hp0] using heq)
          · exact Or.inr ⟨b, List.mem_cons_of_mem _ hb, a, h1, h2, by
              simpa [highestBuildLoop, ha0, hv0, hp0] using h3⟩
        | int n =>
          by_cases hgt0 : n > h
          · have hred : highestBuildLoop app (b0 :: bs) h = highestBuildLoop app bs n := by
              simp [highestBuildLoop, ha0, hv0, hp0, hgt0]
            rcases ih n with heq | ⟨b, hb, a, h1, h2, h3⟩
            · refine Or.inr ⟨b0, List.mem_cons_self _ _, a0, ha0, hv0, ?_⟩
              rw [hred, heq, hp0]
            · exact Or.inr ⟨b, List.mem_cons_of_mem _ hb, a, h1, h2, by rw [hred]; exact h3⟩
          · rcases ih h with heq | ⟨b, hb, a, h1, h2, h3⟩
            · exact Or.inl (by simpa [highestBuildLoop, ha0, hv0, hp0, hgt0] using heq)
            · exact Or.inr ⟨b, List.mem_cons_of_mem _ hb, a, h1, h2, by
                simpa [highestBuildLoop, ha0, hv0, hp0, hgt0] using h3⟩
      · rcases ih h with heq | ⟨b, hb, a, h1, h2, h3⟩
        · exact Or.inl (by simpa [highestBuildLoop, ha0, hv0] using heq)
        · exact Or.inr ⟨b, List.mem_cons_of_mem _ hb, a, h1, h2, by
            simpa [highestBuildLoop, ha0, hv0] using h3⟩

/-- Counterexample to claim C5 as stated: a single record matches the target
version and its buildNumber -5 is parsable, so per the claim the next build
number should be max + 1 = -4, but the code skips non-positive values and
returns 1. -/
theorem iosBuildNumber_negative_counterexample :
    jsParseInt "-5".data = JsNum.int (-5) ∧
    (getIosBuildNumberInfoCore (some [⟨some ⟨"1.0.0".data, "-5".data⟩⟩])
      "1.0.0".data none).buildNumber = 1 ∧
    ¬ ((-5 : Int) + 1 = 1) := by decide

/-- Claim C5 (amended): among records whose version attribute equals the app
release version, only buildNumber attributes parsing to a positive integer
count; the next build number is that maximum plus one, and it is 1 when no
record matches or every matching record parses to a non-positive or
unparsable value (and also when the response carries no data). -/
theorem iosBuildNumber_max_policy (data : List BuildRecord) (app : List Char)
    (hash : Option (List Char)) (h : Int)
    (hh : highestBuildLoop app data 0 = h) :
    (0 < h →
      (getIosBuildNumberInfoCore (some data) app hash).buildNumber = h + 1 ∧
      ∃ b ∈ data, ∃ a, b.attributes = some a ∧ a.version = app ∧
        jsParseInt a.buildNumber = JsNum.int h) ∧
    (h = 0 → (getIosBuildNumberInfoCore (some data) app hash).buildNumber = 1) ∧
    (∀ b ∈ data, ∀ a, b.attributes = some a → a.version = app →
      ∀ v, jsParseInt a.buildNumber = JsNum.int v → v ≤ h) ∧
    (getIosBuildNumberInfoCore none app hash).buildNumber = 1 := by
  refine ⟨?_, ?_, ?_, ?_⟩
  · intro hpos
    have hde : data.isEmpty = false := by
      cases data with
      | nil =>
        exfalso
        have : (0 : Int) = h := by simpa [highestBuildLoop] using hh
        omega
      | cons b bs => rfl
    have hpb : processBuilds (some data) app = some h := by
      simp only [processBuilds, hde, Bool.false_eq_true, if_false, hh,
        if_neg (by omega : ¬ h = 0)]
    constructor
    · simp only [getIosBuildNumberInfoCore, hpb]
      exact composeIosBuildVersion_buildNumber _ _
    · rcases highestBuildLoop_attain app data 0 with heq | ⟨b, hb, a, h1, h2, h3⟩
      · exfalso
        rw [hh] at heq
        omega
      · exact ⟨b, hb, a, h1, h2, by rw [hh] at h3; exact h3⟩
  · intro hz
    cases data with
    | nil =>
      simp only [getIosBuildNumberInfoCore, processBuilds]
      norm_num
      exact composeIosBuildVersion_buildNumber _ _
    | cons b bs =>
      have hpb : processBuilds (some (b :: bs)) app = none := by
        simp [processBuilds, hh, hz]
      simp only [getIosBuildNumberInfoCore, hpb]
      exact composeIosBuildVersion_buildNumber _ _
  · intro b hb a hatt hver v hp
    have := highestBuildLoop_bound app data 0 b a v hb hatt hver hp
    rw [hh] at this
    exact this
  · simp only [getIosBuildNumberInfoCore, processBuilds]
    exact composeIosBuildVersion_buildNumber _ _

/-- Witness for the amended C5 at the claim's example: three matching records
with build numbers 3, 5 and 2 plus one record of another version; the maximum
is 5 and the next build number is 6. -/
theorem iosBuildNumber_max_policy_witness :
    (0 < (5 : Int) →
      (getIosBuildNumberInfoCore
        (some [⟨some ⟨"1.0.0".data, "3".data⟩⟩, ⟨some ⟨"1.0.0".data, "5".data⟩⟩,
               ⟨some ⟨"1.0.0".data, "2".data⟩⟩, ⟨some ⟨"1.1.0".data, "10".data⟩⟩])
        "1.0.0".data none).buildNumber = 5 + 1 ∧
      ∃ b ∈ [⟨some ⟨"1.0.0".data, "3".data⟩⟩, ⟨some ⟨"1.0.0".data, "5".data⟩⟩,
             ⟨some ⟨"1.0.0".data, "2".data⟩⟩,
             (⟨some ⟨"1.1.0".data, "10".data⟩⟩ : BuildRecord)],
        ∃ a, b.attributes = some a ∧ a.version = "1.0.0".data ∧
          jsParseInt a.buildNumber = JsNum.int 5) ∧
    ((5 : Int) = 0 →
      (getIosBuildNumberInfoCore
        (some [⟨some ⟨"1.0.0".data, "3".data⟩⟩, ⟨some ⟨"1.0.0".data, "5".data⟩⟩,
               ⟨some ⟨"1.0.0".data, "2".data⟩⟩, ⟨some ⟨"1.1.0".data, "10".data⟩⟩])
        "1.0.0".data none).buildNumber = 1) ∧
    (∀ b ∈ [⟨some ⟨"1.0.0".data, "3".data⟩⟩, ⟨some ⟨"1.0.0".data, "5".data⟩⟩,
            ⟨some ⟨"1.0.0".data, "2".data⟩⟩,
            (⟨some ⟨"1.1.0".data, "10".data⟩⟩ : BuildRecord)],
      ∀ a, b.attributes = some a → a.version = "1.0.0".data →
        ∀ v, jsParseInt a.buildNumber = JsNum.int v → v ≤ 5) ∧
    (getIosBuildNumberInfoCore none "1.0.0".data none).buildNumber = 1 :=
  iosBuildNumber_max_policy
    [⟨some ⟨"1.0.0".data, "3".data⟩⟩, ⟨some ⟨"1.0.0".data, "5".data⟩⟩,
     ⟨some ⟨"1.0.0".data, "2".data⟩⟩, ⟨some ⟨"1.1.0".data, "10".data⟩⟩]
    "1.0.0".data none 5 (by decide)

/-- Claim C6: in a successful generatePackageVersion result the optional
platform fields are present exactly when the corresponding platform was
enabled, and an enabled platform whose computed counter is non-positive makes
the whole operation fail with an error instead of returning a result. -/
theorem platformFields_presence (tag : List Char) (patch : Int)
    (branch hash : List Char) (aEn : Bool) (aRes : Int) (iEn : Bool)
    (iRes : IosBuildNumberInfo) :
    (∀ vi, generatePackageVersionCore tag patch branch hash aEn aRes iEn iRes = Except.ok vi →
      (vi.androidVersionCode.isSome = true ↔ aEn = true) ∧
      (vi.iosBuildNumber.isSome = true ↔ iEn = true) ∧
      (vi.iosBuildNumberString.isSome = true ↔ iEn = true)) ∧
    (aEn = true → aRes ≤ 0 →
      ∃ e, generatePackageVersionCore tag patch branch hash aEn aRes iEn iRes =
        Except.error e) ∧
    (iEn = true → iRes.buildNumber ≤ 0 →
      ∃ e, generatePackageVersionCore tag patch branch hash aEn aRes iEn iRes =
        Except.error e) := by
  refine ⟨?_, ?_, ?_⟩
  · intro vi hok
    unfold generatePackageVersionCore at hok
    split at hok
    · exact absurd hok (by simp)
    · dsimp only at hok
      split at hok
      · exact absurd hok (by simp)
      · split at hok
        · exact absurd hok (by simp)
        · split at hok
          · exact absurd hok (by simp)
          · rename_i aStep aCode heqA iStep iNum iStr heqI
            simp only [Except.ok.injEq] at hok
            subst hok
            refine ⟨?_, ?_, ?_⟩
            · cases aEn with
              | false =>
                have hc : aCode = none := by
                  simp only [Bool.false_eq_true, if_false, Except.ok.injEq] at heqA
                  exact heqA.symm
                subst hc
                simp
              | true =>
                by_cases hpos : aRes > 0
                · rw [if_pos rfl, if_pos hpos] at heqA
                  have hc : aCode = some aRes := by
                    simp only [Except.ok.injEq] at heqA
                    exact heqA.symm
                  subst hc
                  simp
                · rw [if_pos rfl, if_neg hpos] at heqA
                  exact absurd heqA (by simp)
            · cases iEn with
              | false =>
                have hc : iNum = none := by
                  simp only [Bool.false_eq_true, if_false, Except.ok.injEq,
                    Prod.mk.injEq] at heqI
                  exact heqI.1.symm
                subst hc
                simp
              | true =>
                by_cases hbn : iRes.buildNumber ≤ 0
                · rw [if_pos rfl, if_pos hbn] at heqI
                  exact absurd heqI (by simp)
                · rw [if_pos rfl, if_neg hbn] at heqI
                  have hc : iNum = some iRes.buildNumber := by
                    simp only [Except.ok.injEq, Prod.mk.injEq] at heqI
                    exact heqI.1.symm
                  subst hc
                  simp
            · cases iEn with
              | false =>
                have hc : iStr = none := by
                  simp only [Bool.false_eq_true, if_false, Except.ok.injEq,
                    Prod.mk.injEq] at heqI
                  exact heqI.2.symm
                subst hc
                simp
              | true =>
                by_cases hbn : iRes.buildNumber ≤ 0
                · rw [if_pos rfl, if_pos hbn] at heqI
                  exact absurd heqI (by simp)
                · rw [if_pos rfl, if_neg hbn] at heqI
                  have hc : iStr = some iRes.buildVersion := by
                    simp only [Except.ok.injEq, Prod.mk.injEq] at heqI
                    exact heqI.2.symm
                  subst hc
                  simp
  · intro haEn hares
    subst haEn
    unfold generatePackageVersionCore
    by_cases h1 : (¬ (tag.head? == some 'v') = true)
    · simp only [if_pos h1]
      exact ⟨_, rfl⟩
    · simp only [if_neg h1]
      by_cases h2 : ((((tag.drop 1).splitOn '.').head?.getD []).isEmpty = true ∨
          ((((tag.drop 1).splitOn '.').drop 1).head?.getD []).isEmpty = true)
      · simp only [if_pos h2]
        exact ⟨_, rfl⟩
      · simp only [if_neg h2, if_pos rfl, if_neg (by omega : ¬ aRes > 0)]
        exact ⟨_, rfl⟩
  · intro hiEn hbn
    subst hiEn
    unfold generatePackageVersionCore
    by_cases h1 : (¬ (tag.head? == some 'v') = true)
    · simp only [if_pos h1]
      exact ⟨_, rfl⟩
    · simp only [if_neg h1]
      by_cases h2 : ((((tag.drop 1).splitOn '.').head?.getD []).isEmpty = true ∨
          ((((tag.drop 1).splitOn '.').drop 1).head?.getD []).isEmpty = true)
      · simp only [if_pos h2]
        exact ⟨_, rfl⟩
      · simp only [if_neg h2]
        cases aEn with
        | false =>
          simp only [Bool.false_eq_true, if_false, if_pos rfl, if_pos hbn]
          exact ⟨_, rfl⟩
        | true =>
          by_cases hpos : aRes > 0
          · simp only [if_pos rfl, if_pos hpos, if_pos hbn]
            exact ⟨_, rfl⟩
          · simp only [if_pos rfl, if_neg hpos]
            exact ⟨_, rfl⟩

/-- Witness for C6: with Android enabled and a non-positive injected counter
the operation fails with an error. -/
theorem platformFields_presence_witness :
    ∃ e, generatePackageVersionCore "v1.2".data 42 "main".data "abcdef12".data
      true 0 false (composeIosBuildVersion 0 none) = Except.error e :=
  (platformFields_presence "v1.2".data 42 "main".data "abcdef12".data
    true 0 false (composeIosBuildVersion 0 none)).2.1 rfl (by norm_num)

/-- Counterexample to claim C1 as stated: the base64 string WzFd decodes to a
JSON array (typeof result object in JavaScript), and isBase64 returns true for
it although the claim says a decoded JSON array never counts as encoded. -/
theorem isBase64_array_counterexample :
    isBase64 "WzFd".data true = true ∧
    b64DecodedText "WzFd".data = "[1]".data ∧
    jsonParse (b64DecodedText "WzFd".data) = some Js.jarr ∧
    ¬ (Js.jarr = Js.jobj) := by decide

/-- Claim C1 (amended): for a value that is not quote-wrapped, passes the
base64 shape check after whitespace cleaning, and decodes to non-empty text,
isBase64 with expectJson true returns true only if the decoded text parses as
JSON with typeof object, which in JavaScript admits objects, arrays and null;
decoded primitives and unparsable decodes yield false. -/
theorem isBase64_expectJson_decoded_typeof (s : List Char)
    (hne : s ≠ [])
    (hq : quoteWrapped s = false)
    (hshape : base64ShapeOk (stripJsWs s) = true)
    (hdec : ¬ (b64DecodedText s).isEmpty = true) :
    (isBase64 s true = true →
        ∃ v, jsonParse (b64DecodedText s) = some v ∧ isTypeofObject v = true) ∧
    (∀ v, jsonParse (b64DecodedText s) = some v → isTypeofObject v = false →
        isBase64 s true = false) ∧
    (jsonParse (b64DecodedText s) = none → isBase64 s true = false) := by
  have hemp : ¬ (s.isEmpty = true) := by simpa using hne
  have hbody : isBase64 s true = isBase64Body s true := by
    rw [isBase64_unfold, if_neg hemp, if_neg (by simp [hq])]
  by_cases hdir : (match jsonParse s with
      | some v => isComplexJson v
      | none => false) = true
  · have hfalse : isBase64Body s true = false := by
      unfold isBase64Body
      simp [hdir]
    rw [hbody, hfalse]
    exact ⟨by simp, fun v _ _ => rfl, fun _ => rfl⟩
  · have hdir' : (match jsonParse s with
        | some v => isComplexJson v
        | none => false) = false := by
      revert hdir
      cases (match jsonParse s with
        | some v => isComplexJson v
        | none => false) <;> simp
    have hb : isBase64Body s true =
        (match jsonParse (b64DecodedText s) with
         | some v => isTypeofObject v
         | none => false) := by
      unfold isBase64Body
      simp only [hdir', Bool.and_false, Bool.false_eq_true, if_false, hshape,
        Bool.not_true, Bool.true_and]
      rw [if_neg (show ¬ ((utf8Decode (b64DecodeBytes (stripJsWs s))).isEmpty = true)
        from hdec)]
      rw [if_pos trivial]
      rfl
    rw [hbody, hb]
    cases hjp : jsonParse (b64DecodedText s) with
    | none =>
      refine ⟨fun h => absurd h (by simp), fun v hv => absurd hv (by simp), fun _ => rfl⟩
    | some v =>
      refine ⟨fun htrue => ⟨v, rfl, htrue⟩, ?_, fun hnone => absurd hnone (by simp)⟩
      intro v' hv' hto
      have hvv : v' = v := by
        simp only [Option.some.injEq] at hv'
        exact hv'.symm
      subst hvv
      exact hto

/-- Witness for the amended C1 at the base64 encoding of the object with one
key a and value 1: the decoded text parses as a JSON object and isBase64
accepts it. -/
theorem isBase64_expectJson_decoded_typeof_witness :
    (isBase64 "eyJhIjoxfQ==".data true = true →
        ∃ v, jsonParse (b64DecodedText "eyJhIjoxfQ==".data) = some v ∧
          isTypeofObject v = true) ∧
    (∀ v, jsonParse (b64DecodedText "eyJhIjoxfQ==".data) = some v →
        isTypeofObject v = false → isBase64 "eyJhIjoxfQ==".data true = false) ∧
    (jsonParse (b64DecodedText "eyJhIjoxfQ==".data) = none →
        isBase64 "eyJhIjoxfQ==".data true = false) :=
  isBase64_expectJson_decoded_typeof "eyJhIjoxfQ==".data (by decide) (by decide)
    (by decide) (by decide)
